import Mathlib

/-!
Shallow embedding of the uAT library core (uat_parser.c and uat_freertos.c)
and proofs about the behaviour of its parsing, handler-table, dispatch,
send-receive and DMA idle-handler code.

C strings are modelled as `List Char` holding the bytes before the
terminating NUL (the end of the list plays the role of the `'\0'`
terminator).  NULL pointers passed by callers are modelled by `Option`
arguments where the corresponding C function checks for NULL.  Output
buffers are modelled by the C-string contents the function leaves in
the buffer (`Option (List Char)`, `none` meaning the buffer was not
touched at all).
-/

set_option maxRecDepth 10000

/-- Result codes of uat_parser.h (uAT_ParseResult_t). -/
inductive uAT_ParseResult where
  | UAT_PARSE_OK
  | UAT_PARSE_NULL_ARG
  | UAT_PARSE_PREFIX_NOT_FOUND
  | UAT_PARSE_INVALID_FORMAT
  | UAT_PARSE_BUFFER_TOO_SMALL
  | UAT_PARSE_INVALID_VALUE
deriving DecidableEq, Repr

open uAT_ParseResult

/-- C `strstr(r, p)`: the suffix of `r` starting at the first occurrence of
`p` in `r`, or `none` when `p` does not occur.  (`strstr` with an empty
needle returns the haystack itself.) -/
def strstrSuffix : List Char → List Char → Option (List Char)
  | r, p =>
    if p.isPrefixOf r then some r
    else
      match r with
      | [] => none
      | _ :: t => strstrSuffix t p

/-- The `while (*start == ' ' || *start == '\t') start++;` loop shared by the
parsers. -/
def skipWs : List Char → List Char
  | [] => []
  | c :: t => if c = ' ' ∨ c = '\t' then skipWs t else c :: t

/-- The shared parser discipline: locate the first occurrence of `p` in `r`,
advance past it, and skip SP/HT.  `none` when the search prefix is absent. -/
def afterPfx (r p : List Char) : Option (List Char) :=
  (strstrSuffix r p).map (fun s => skipWs (s.drop p.length))

/-- The `while (*end != '\0' && *end != '\r' && *end != '\n') end++;` scan of
uAT_ParseString: the bytes strictly before the first CR, LF or NUL. -/
def scanToLineEnd : List Char → List Char
  | [] => []
  | c :: t => if c = '\r' ∨ c = '\n' then [] else c :: scanToLineEnd t

/-- uAT_ParseString (uat_parser.c lines 438-494).  Returns the result code and
the final contents of the caller's buffer (`none`: buffer untouched). -/
def uAT_ParseString (r p : List Char) (bufferSize : Nat) :
    uAT_ParseResult × Option (List Char) :=
  if bufferSize = 0 then (UAT_PARSE_NULL_ARG, none)
  else
    match afterPfx r p with
    | none => (UAT_PARSE_PREFIX_NOT_FOUND, some [])
    | some s =>
      match s with
      | [] => (UAT_PARSE_INVALID_FORMAT, some [])
      | _ :: _ =>
        let v := scanToLineEnd s
        if bufferSize ≤ v.length then
          (UAT_PARSE_BUFFER_TOO_SMALL, some (v.take (bufferSize - 1)))
        else
          (UAT_PARSE_OK, some v)

/-- The `while (*end != '\0' && *end != '"') end++;` scan of
uAT_ParseQuotedString: the bytes strictly before the first `"` or NUL. -/
def scanToQuote : List Char → List Char
  | [] => []
  | c :: t => if c = '"' then [] else c :: scanToQuote t

/-- uAT_ParseQuotedString (uat_parser.c lines 505-570). -/
def uAT_ParseQuotedString (r p : List Char) (bufferSize : Nat) :
    uAT_ParseResult × Option (List Char) :=
  if bufferSize = 0 then (UAT_PARSE_NULL_ARG, none)
  else
    match afterPfx r p with
    | none => (UAT_PARSE_PREFIX_NOT_FOUND, some [])
    | some s =>
      match s with
      | '"' :: rest =>
        let v := scanToQuote rest
        if rest.drop v.length = [] then
          -- the scan hit NUL, no closing quote
          (UAT_PARSE_INVALID_FORMAT, some [])
        else if bufferSize ≤ v.length then
          (UAT_PARSE_BUFFER_TOO_SMALL, some (v.take (bufferSize - 1)))
        else
          (UAT_PARSE_OK, some v)
      | _ => (UAT_PARSE_INVALID_FORMAT, some [])

/-- The per-character state of the uAT_ParseIPAddress validation loop. -/
structure IpScan where
  dots : Nat
  digits : Nat
  octet : Nat
  valid : Bool
deriving DecidableEq, Repr

/-- One iteration of the uAT_ParseIPAddress validation loop body. -/
def ipStep (st : IpScan) (c : Char) : IpScan :=
  if c = '.' then
    let v1 := if st.digits = 0 then false
              else if 255 < st.octet then false
              else st.valid
    { dots := st.dots + 1, digits := 0, octet := 0, valid := v1 }
  else if '0' ≤ c ∧ c ≤ '9' then
    let digits1 := st.digits + 1
    let octet1 := st.octet * 10 + (c.toNat - '0'.toNat)
    let v1 := if 3 < digits1 ∨ 255 < octet1 then false else st.valid
    { st with digits := digits1, octet := octet1, valid := v1 }
  else
    { st with valid := false }

/-- The uAT_ParseIPAddress scan loop
`while (*ptr != '\0' && *ptr != '\r' && *ptr != '\n' && *ptr != ' ' && valid)`.
Returns the final state and the number of characters consumed
(`ptr - start`). -/
def ipScanLoop (st : IpScan) : List Char → IpScan × Nat
  | [] => (st, 0)
  | c :: t =>
    if c = '\r' ∨ c = '\n' ∨ c = ' ' then (st, 0)
    else if st.valid = false then (st, 0)
    else
      let p := ipScanLoop (ipStep st c) t
      (p.1, p.2 + 1)

/-- The post-loop acceptance test of uAT_ParseIPAddress:
`digits == 0 || octet_value > 255` forces `valid = false`, then the address is
accepted iff `valid && dots == 3 && digits != 0`. -/
def ipAccept (st : IpScan) : Bool :=
  let v2 : Bool := if st.digits = 0 ∨ 255 < st.octet then false else st.valid
  v2 && st.dots = 3 && st.digits ≠ 0

/-- uAT_ParseIPAddress (uat_parser.c lines 688-778).  Note that on the
buffer-too-small path nothing is copied: the buffer keeps only the initial
`buffer[0] = '\0'`. -/
def uAT_ParseIPAddress (r p : List Char) (bufferSize : Nat) :
    uAT_ParseResult × Option (List Char) :=
  if bufferSize = 0 then (UAT_PARSE_NULL_ARG, none)
  else
    match afterPfx r p with
    | none => (UAT_PARSE_PREFIX_NOT_FOUND, some [])
    | some s =>
      let scanned := ipScanLoop ⟨0, 0, 0, true⟩ s
      if ipAccept scanned.1 = false then (UAT_PARSE_INVALID_FORMAT, some [])
      else if bufferSize ≤ scanned.2 then
        (UAT_PARSE_BUFFER_TOO_SMALL, some [])
      else
        (UAT_PARSE_OK, some (s.take scanned.2))

/-- `strtoul(s, &end, 10)` on a string, as used by uAT_ParseBinaryData:
consume leading decimal digits, returning the value and the rest. -/
def parseDecDigits : List Char → Nat → Nat × List Char
  | [], acc => (acc, [])
  | c :: t, acc =>
    if '0' ≤ c ∧ c ≤ '9' then parseDecDigits t (acc * 10 + (c.toNat - '0'.toNat))
    else (acc, c :: t)

/-- The length-indicator block of uAT_ParseBinaryData: if the first byte is a
decimal digit, parse the count and skip one following `,` or `:`; otherwise
the count is 0 and the payload starts immediately. -/
def binCount (s : List Char) : Nat × List Char :=
  match s with
  | c :: _ =>
    if '0' ≤ c ∧ c ≤ '9' then
      let p := parseDecDigits s 0
      (p.1,
        match p.2 with
        | d :: t2 => if d = ',' ∨ d = ':' then t2 else d :: t2
        | [] => [])
    else (0, s)
  | [] => (0, s)

/-- uAT_ParseBinaryData (uat_parser.c lines 790-856).  Returns the result
code, the bytes copied into the buffer, and the value stored in `*dataSize`
(`none`: `*dataSize` untouched, which happens only on the NULL-argument
path). -/
def uAT_ParseBinaryData (r p : List Char) (bufferSize : Nat) :
    uAT_ParseResult × List Char × Option Nat :=
  if bufferSize = 0 then (UAT_PARSE_NULL_ARG, [], none)
  else
    match afterPfx r p with
    | none => (UAT_PARSE_PREFIX_NOT_FOUND, [], some 0)
    | some s =>
      let c := binCount s
      let expectedLength := c.1
      let dataStart := c.2
      let availableData := dataStart.length
      let copyLength :=
        if 0 < expectedLength ∧ expectedLength ≤ availableData then expectedLength
        else availableData
      if bufferSize < copyLength then
        (UAT_PARSE_BUFFER_TOO_SMALL, dataStart.take bufferSize, some bufferSize)
      else
        (UAT_PARSE_OK, dataStart.take copyLength, some copyLength)

/-! ## uat_freertos.c: handle state, handler table, dispatch, send-receive -/

/-- Result codes of uat_freertos.h (uAT_Result_t). -/
inductive uAT_Result where
  | UAT_OK
  | UAT_ERR_INVALID_ARG
  | UAT_ERR_BUSY
  | UAT_ERR_TIMEOUT
  | UAT_ERR_NOT_FOUND
  | UAT_ERR_SEND_FAIL
  | UAT_ERR_INIT_FAIL
  | UAT_ERR_INT
  | UAT_ERR_RESOURCE
deriving DecidableEq, Repr

open uAT_Result

/-- UAT_RX_BUFFER_SIZE (uat_freertos.h). -/
def UAT_RX_BUFFER_SIZE : Nat := 512

/-- UAT_MAX_CMD_HANDLERS (uat_freertos.h). -/
def UAT_MAX_CMD_HANDLERS : Nat := 10

/-- UAT_DMA_RX_SIZE (uat_freertos.h). -/
def UAT_DMA_RX_SIZE : Nat := 512

/-- uAT_CommandEntry.  The callback function pointer is modelled by a `Nat`
identifier, with `0` playing the role of `NULL`. -/
structure uAT_CommandEntry where
  command : List Char
  handler : Nat
deriving DecidableEq, Repr

/-- The function pointer `uAT_CommandHandler_SendReceive` registered by
uAT_SetupSendReceiveState; any fixed nonzero identifier models it. -/
def uAT_CommandHandler_SendReceive_id : Nat := 1

/-- The mutable part of uAT_Handle_t that the claims are about.  The live
entries `cmdHandlers[0..cmdCount)` are the elements of the `cmdHandlers`
list, so `cmdCount` is its length.  `srBuffer` is the C-string contents the
library has written into the caller's SendReceive buffer so far, so
`srBufferPos = srBuffer.length` (every write goes through
uAT_AppendToResponseBuffer, which advances the position by exactly the
number of bytes written, and setup resets both).  `srBufferValid` models
`srBuffer != NULL`.  `semPending` models the state of the binary semaphore
`sendReceiveSem` (true: a give has been signalled and not yet taken). -/
structure uAT_Handle where
  cmdHandlers : List uAT_CommandEntry
  inSendReceive : Bool
  srBufferValid : Bool
  srBuffer : List Char
  srBufferSize : Nat
  semPending : Bool
deriving DecidableEq, Repr

/-- State of the handle right after uAT_Init (lines 305-310): empty table,
no SendReceive outstanding, binary semaphore created empty. -/
def uAT_initState : uAT_Handle :=
  { cmdHandlers := [], inSendReceive := false, srBufferValid := false,
    srBuffer := [], srBufferSize := 0, semPending := false }

/-- The duplicate-update scan of uAT_RegisterCommand (lines 373-380): update
the handler of the first entry whose command equals `c`; `none` when no
entry matches. -/
def updateExisting : List uAT_CommandEntry → List Char → Nat →
    Option (List uAT_CommandEntry)
  | [], _, _ => none
  | e :: t, c, h =>
    if e.command = c then some ({ e with handler := h } :: t)
    else
      match updateExisting t c h with
      | some t2 => some (e :: t2)
      | none => none

/-- The remove-and-shift scan shared by uAT_UnregisterCommand (lines 410-424)
and the duplicate removal of uAT_RegisterURC (lines 928-937): remove the
first entry whose command equals `c`; `none` when absent.  (The C code
shifts the tail down and clears the vacated last slot, which in the
live-entry list model is exactly removal.) -/
def removeFirst : List uAT_CommandEntry → List Char →
    Option (List uAT_CommandEntry)
  | [], _ => none
  | e :: t, c =>
    if e.command = c then some t
    else
      match removeFirst t c with
      | some t2 => some (e :: t2)
      | none => none

/-- uAT_RegisterCommand (lines 354-394).  `cmd = none` models a NULL command
pointer; `handler = 0` models a NULL handler.  The mutex take uses
portMAX_DELAY and is modelled as succeeding. -/
def uAT_RegisterCommand (s : uAT_Handle) (cmd : Option (List Char))
    (handler : Nat) : uAT_Result × uAT_Handle :=
  match cmd with
  | none => (UAT_ERR_INVALID_ARG, s)
  | some c =>
    if handler = 0 then (UAT_ERR_INVALID_ARG, s)
    else if c.length = 0 ∨ UAT_RX_BUFFER_SIZE ≤ c.length then
      (UAT_ERR_INVALID_ARG, s)
    else
      match updateExisting s.cmdHandlers c handler with
      | some t => (UAT_OK, { s with cmdHandlers := t })
      | none =>
        if s.cmdHandlers.length < UAT_MAX_CMD_HANDLERS then
          (UAT_OK, { s with cmdHandlers := s.cmdHandlers ++ [⟨c, handler⟩] })
        else (UAT_ERR_RESOURCE, s)

/-- uAT_UnregisterCommand (lines 402-428).  Note the missing empty-string
check: the function searches for whatever `cmd` it is given. -/
def uAT_UnregisterCommand (s : uAT_Handle) (cmd : Option (List Char)) :
    uAT_Result × uAT_Handle :=
  match cmd with
  | none => (UAT_ERR_INVALID_ARG, s)
  | some c =>
    match removeFirst s.cmdHandlers c with
    | some t => (UAT_OK, { s with cmdHandlers := t })
    | none => (UAT_ERR_NOT_FOUND, s)

/-- uAT_RegisterURC (lines 909-956): validate, remove any entry with the same
command, then insert at index 0 if there is room. -/
def uAT_RegisterURC (s : uAT_Handle) (cmd : Option (List Char))
    (handler : Nat) : uAT_Result × uAT_Handle :=
  match cmd with
  | none => (UAT_ERR_INVALID_ARG, s)
  | some c =>
    if handler = 0 then (UAT_ERR_INVALID_ARG, s)
    else if c.length = 0 ∨ UAT_RX_BUFFER_SIZE ≤ c.length then
      (UAT_ERR_INVALID_ARG, s)
    else
      let t0 := match removeFirst s.cmdHandlers c with
        | some t => t
        | none => s.cmdHandlers
      if t0.length < UAT_MAX_CMD_HANDLERS then
        (UAT_OK, { s with cmdHandlers := ⟨c, handler⟩ :: t0 })
      else (UAT_ERR_RESOURCE, { s with cmdHandlers := t0 })

/-- uAT_AppendToResponseBuffer (lines 437-466).  `data` is the line together
with its length argument (`len = data.length`, as passed by uAT_Task). -/
def uAT_AppendToResponseBuffer (s : uAT_Handle) (data : List Char) :
    Bool × uAT_Handle :=
  if data = [] then (false, s)
  else if ¬s.inSendReceive ∨ ¬s.srBufferValid ∨
      s.srBufferSize - 1 ≤ s.srBuffer.length then (false, s)
  else
    let spaceLeft := s.srBufferSize - s.srBuffer.length - 1
    let len := min data.length spaceLeft
    if 0 < len then
      (true, { s with srBuffer := s.srBuffer ++ data.take len })
    else (false, s)

/-- uAT_SetupSendReceiveState (lines 530-563).  `outBufValid` models
`outBuf != NULL`.  Note that an empty `expected` string passes the
validation: only NULL is rejected. -/
def uAT_SetupSendReceiveState (s : uAT_Handle) (expected : Option (List Char))
    (outBufValid : Bool) (bufLen : Nat) : uAT_Result × uAT_Handle :=
  match expected with
  | none => (UAT_ERR_INVALID_ARG, s)
  | some e =>
    if ¬outBufValid ∨ bufLen = 0 then (UAT_ERR_INVALID_ARG, s)
    else
      let s1 := { s with inSendReceive := true, srBufferValid := true,
                         srBuffer := [], srBufferSize := bufLen }
      if s1.cmdHandlers.length < UAT_MAX_CMD_HANDLERS then
        (UAT_OK, { s1 with cmdHandlers :=
          s1.cmdHandlers ++ [⟨e, uAT_CommandHandler_SendReceive_id⟩] })
      else
        (UAT_ERR_RESOURCE,
         { s1 with inSendReceive := false, srBufferValid := false,
                   srBuffer := [], srBufferSize := 0 })

/-- uAT_CleanupSendReceiveState (lines 490-502): unregister the expected
entry and reset the SendReceive slot. -/
def uAT_CleanupSendReceiveState (s : uAT_Handle)
    (expected : Option (List Char)) : uAT_Handle :=
  let s1 := match expected with
    | some e => (uAT_UnregisterCommand s (some e)).2
    | none => s
  { s1 with inSendReceive := false, srBufferValid := false,
            srBuffer := [], srBufferSize := 0 }

/-- Step 1 of uAT_SendReceive (lines 598-616): take handlerMutex (modelled as
succeeding), refuse with BUSY when a SendReceive is already active, set up
the state, release the mutex.  Note: nothing here touches `semPending`. -/
def uAT_SendReceive_step1 (s : uAT_Handle) (expected : Option (List Char))
    (outBufValid : Bool) (bufLen : Nat) : uAT_Result × uAT_Handle :=
  if s.inSendReceive then (UAT_ERR_BUSY, s)
  else
    let r := uAT_SetupSendReceiveState s expected outBufValid bufLen
    if r.1 ≠ UAT_OK then (UAT_ERR_INT, r.2)
    else (UAT_OK, r.2)

/-- uAT_SendReceive (lines 582-634).  `sendResult` is the outcome of the
uAT_SendCommand transmission (external to this state), and
`signalDuringWait` records whether the sr-callback fires (a matching line
arrives and is dispatched) while step 3 is waiting on `sendReceiveSem`.
The step-3 take succeeds iff a signal was already pending at the start of
the wait or one arrives during it. -/
def uAT_SendReceive (s : uAT_Handle) (cmd expected : Option (List Char))
    (outBufValid : Bool) (bufLen : Nat) (sendResult : uAT_Result)
    (signalDuringWait : Bool) : uAT_Result × uAT_Handle :=
  match cmd, expected with
  | none, _ => (UAT_ERR_INVALID_ARG, s)
  | _, none => (UAT_ERR_INVALID_ARG, s)
  | some _, some e =>
    if ¬outBufValid ∨ bufLen = 0 then (UAT_ERR_INVALID_ARG, s)
    else if UAT_RX_BUFFER_SIZE ≤ e.length then (UAT_ERR_INVALID_ARG, s)
    else
      let r1 := uAT_SendReceive_step1 s (some e) outBufValid bufLen
      if r1.1 ≠ UAT_OK then (r1.1, r1.2)
      else if sendResult ≠ UAT_OK then
        (UAT_ERR_SEND_FAIL, uAT_CleanupSendReceiveState r1.2 (some e))
      else
        let s1 := r1.2
        if s1.semPending ∨ signalDuringWait then
          (UAT_OK, uAT_CleanupSendReceiveState { s1 with semPending := false }
            (some e))
        else
          (UAT_ERR_TIMEOUT, uAT_CleanupSendReceiveState s1 (some e))

/-- The `while (*args == ' ') args++;` loop of uAT_DispatchCommand
(lines 708-710): only SP is skipped, not HT. -/
def skipSpaces : List Char → List Char
  | [] => []
  | c :: t => if c = ' ' then skipSpaces t else c :: t

/-- The handler scan of uAT_DispatchCommand (lines 695-727) over the table:
first entry (front to back) whose nonempty command is a byte-exact start of
the line wins; its handler id and the argument pointer (after the command,
leading SP skipped) are returned.  A matching entry with a NULL handler
makes the dispatch fail (the C code returns false immediately). -/
def dispatchScan : List uAT_CommandEntry → List Char →
    Option (Nat × List Char)
  | [], _ => none
  | e :: t, l =>
    if e.command = [] then dispatchScan t l
    else if e.command.isPrefixOf l then
      if e.handler = 0 then none
      else some (e.handler, skipSpaces (l.drop e.command.length))
    else dispatchScan t l

/-- uAT_DispatchCommand (lines 679-730), as a function of the handler table:
returns the handler invocation (handler id, args) it performs, or `none`
when the line is rejected or no entry matches. -/
def uAT_DispatchCommand (table : List uAT_CommandEntry) (line : List Char) :
    Option (Nat × List Char) :=
  if line = [] ∨ UAT_RX_BUFFER_SIZE ≤ line.length then none
  else
    let safeLine := if UAT_RX_BUFFER_SIZE - 1 ≤ line.length
      then line.take (UAT_RX_BUFFER_SIZE - 2) else line
    dispatchScan table safeLine

/-- Observable events of one uAT_Task loop iteration, in program order.
`invoke` records the handler id, the argument string, and the contents of
the SendReceive accumulator at the moment the handler is called. -/
inductive uAT_Event where
  | append (data : List Char)
  | invoke (handler : Nat) (args : List Char) (srSnapshot : List Char)
deriving DecidableEq, Repr

/-- The body of the uAT_Task loop for one received line (lines 828-844),
given that the handler mutex was acquired: append the line to the
SendReceive accumulator when one is active, then dispatch. -/
def uAT_Task_processLine (s : uAT_Handle) (line : List Char) :
    uAT_Handle × List uAT_Event :=
  if line = [] then (s, [])
  else
    let step :=
      if s.inSendReceive ∧ s.srBufferValid then
        ((uAT_AppendToResponseBuffer s line).2, [uAT_Event.append line])
      else (s, [])
    let s1 := step.1
    match uAT_DispatchCommand s1.cmdHandlers line with
    | some pa => (s1, step.2 ++ [uAT_Event.invoke pa.1 pa.2 s1.srBuffer])
    | none => (s1, step.2)

/-- Result of uAT_UART_IdleHandler: the bytes accepted by the stream buffer
in order, the returned success flag, and the value of `dma_last_pos`
afterwards. -/
structure IdleResult where
  pushed : List Nat
  ok : Bool
  lastPos : Nat
deriving DecidableEq, Repr

/-- uAT_UART_IdleHandler (lines 97-186), as a function of the DMA ring
contents `buf`, the cursor `lastPos`, the derived `currentPos`, and the free
space `room` of the stream buffer.  Each xStreamBufferSendFromISR accepts
`min len room` of the `len` bytes offered (a short write when the stream is
too full), and in the wrap case the second send is attempted only when the
first one succeeded completely.  The final `dma_last_pos` update is
unconditional. -/
def uAT_UART_IdleHandler (buf : List Nat) (lastPos currentPos room : Nat) :
    IdleResult :=
  if currentPos = lastPos then ⟨[], true, lastPos⟩
  else if lastPos < currentPos then
    let dataLen0 := currentPos - lastPos
    -- `if (data_len > UAT_DMA_RX_SIZE)` overflow guard
    let dataLen := if UAT_DMA_RX_SIZE < dataLen0
      then UAT_DMA_RX_SIZE - lastPos else dataLen0
    let ovf : Bool := UAT_DMA_RX_SIZE < dataLen0
    let slice := (buf.drop lastPos).take dataLen
    let sent := min dataLen room
    ⟨slice.take sent, !ovf && decide (sent = dataLen), currentPos⟩
  else
    let tailLen := UAT_DMA_RX_SIZE - lastPos
    let slice1 := (buf.drop lastPos).take tailLen
    let sent1 := min tailLen room
    let ok1 : Bool := decide (sent1 = tailLen)
    if 0 < currentPos ∧ ok1 = true then
      let slice2 := buf.take currentPos
      let sent2 := min currentPos (room - sent1)
      ⟨slice1.take sent1 ++ slice2.take sent2,
       decide (sent2 = currentPos), currentPos⟩
    else
      ⟨slice1.take sent1, ok1, currentPos⟩

/-- The invariant of the live region of the handler table: never more than
UAT_MAX_CMD_HANDLERS entries, and every live entry has a nonempty command
string and a non-NULL handler.  (A NULL command pointer is not representable
in the live-entry list model; every stored command comes from a validated
non-NULL argument.) -/
def tableInv (l : List uAT_CommandEntry) : Prop :=
  l.length ≤ UAT_MAX_CMD_HANDLERS ∧ ∀ e ∈ l, e.command ≠ [] ∧ e.handler ≠ 0

/-- The part of the table invariant that uAT_SetupSendReceiveState actually
preserves: the bound and non-NULL handlers (command strings may be empty). -/
def tableWeakInv (l : List uAT_CommandEntry) : Prop :=
  l.length ≤ UAT_MAX_CMD_HANDLERS ∧ ∀ e ∈ l, e.handler ≠ 0

instance (l : List uAT_CommandEntry) : Decidable (tableInv l) := by
  unfold tableInv; infer_instance

instance (l : List uAT_CommandEntry) : Decidable (tableWeakInv l) := by
  unfold tableWeakInv; infer_instance

/-! ## Lemmas about the parser scans -/

theorem scanToLineEnd_not_crlf {s : List Char} :
    ∀ c ∈ scanToLineEnd s, c ≠ '\r' ∧ c ≠ '\n' := by
  induction s with
  | nil => intro c hc; simp [scanToLineEnd] at hc
  | cons a t ih =>
    intro c hc
    by_cases ha : a = '\r' ∨ a = '\n'
    · simp [scanToLineEnd, ha] at hc
    · simp only [scanToLineEnd, if_neg ha, List.mem_cons] at hc
      rcases hc with rfl | hc
      · push_neg at ha; exact ha
      · exact ih c hc

theorem scanToLineEnd_isPrefix (s : List Char) : scanToLineEnd s <+: s := by
  induction s with
  | nil => simp [scanToLineEnd]
  | cons a t ih =>
    by_cases ha : a = '\r' ∨ a = '\n'
    · simp [scanToLineEnd, ha]
    · simpa [scanToLineEnd, ha] using ih

theorem scanToLineEnd_stops (s : List Char) :
    s.drop (scanToLineEnd s).length = [] ∨
    ∃ c t, s.drop (scanToLineEnd s).length = c :: t ∧ (c = '\r' ∨ c = '\n') := by
  induction s with
  | nil => left; simp
  | cons a t ih =>
    by_cases ha : a = '\r' ∨ a = '\n'
    · right; exact ⟨a, t, by simp [scanToLineEnd, ha], ha⟩
    · simpa [scanToLineEnd, ha] using ih

/-! ## Claim C3: uAT_ParseString extraction and the empty-span case -/

/-- Claim C3, counterexample: for the response `"X:\r\n"` with search string
`"X:"` the extracted span is empty because the character immediately after
the search string is CR, yet uAT_ParseString returns UAT_PARSE_OK (with an
empty buffer), not UAT_PARSE_INVALID_FORMAT as the claim states. -/
theorem C3_counterexample :
    afterPfx (("X:\r\n").toList) (("X:").toList) = some (('\r') :: ('\n') :: []) ∧
    scanToLineEnd (('\r') :: ('\n') :: []) = [] ∧
    uAT_ParseString (("X:\r\n").toList) (("X:").toList) 10 =
      (UAT_PARSE_OK, some []) ∧
    UAT_PARSE_OK ≠ UAT_PARSE_INVALID_FORMAT := by decide

/-- Claim C3 (amended): for every response containing the search string,
with `s` the remainder after the search string and skipped SP/HT,
uAT_ParseString copies into the buffer exactly the bytes of `s` up to but
not including the first CR, LF or NUL (provided they fit); the empty-span
case returns UAT_PARSE_INVALID_FORMAT only when the character immediately
after search-string-and-whitespace is NUL (end of string); an immediate CR
or LF yields UAT_PARSE_OK with an empty buffer. -/
theorem C3_parse_string_spec (r p : List Char) (n : Nat) (s : List Char)
    (hp : afterPfx r p = some s) (hn : 0 < n) :
    (s = [] → uAT_ParseString r p n = (UAT_PARSE_INVALID_FORMAT, some [])) ∧
    (scanToLineEnd s <+: s ∧ ∀ c ∈ scanToLineEnd s, c ≠ '\r' ∧ c ≠ '\n') ∧
    (s ≠ [] → (scanToLineEnd s).length < n →
      uAT_ParseString r p n = (UAT_PARSE_OK, some (scanToLineEnd s))) := by
  refine ⟨?_, ⟨scanToLineEnd_isPrefix s, fun c hc => scanToLineEnd_not_crlf c hc⟩, ?_⟩
  · rintro rfl
    simp [uAT_ParseString, hp, Nat.pos_iff_ne_zero.mp hn]
  · intro hs hlen
    match s, hs with
    | c :: t, _ =>
      simp [uAT_ParseString, hp, Nat.pos_iff_ne_zero.mp hn, Nat.not_le.mpr hlen]

/-- Claim C3, witness: the amended theorem applied to the response
`"Model: RC7120\r\n"` with search string `"Model: "` and a 100-byte buffer. -/
theorem C3_witness :
    uAT_ParseString (("Model: RC7120\r\n").toList) (("Model: ").toList) 100 =
      (UAT_PARSE_OK, some (("RC7120").toList)) := by
  have h := C3_parse_string_spec (("Model: RC7120\r\n").toList)
    (("Model: ").toList) 100 (("RC7120\r\n").toList) (by decide) (by decide)
  exact (h.2.2 (by decide) (by decide)).trans (by decide)

/-! ## Claim C2: buffer-too-small behaviour of the string parsers -/

/-- Claim C2, counterexample: uAT_ParseIPAddress with the address
`"1.2.3.4"` (7 bytes) and a 4-byte buffer returns
UAT_PARSE_BUFFER_TOO_SMALL but leaves the buffer empty instead of filling
it with the first 3 bytes `"1.2"` of the value. -/
theorem C2_counterexample :
    uAT_ParseIPAddress (("IP: 1.2.3.4").toList) (("IP: ").toList) 4 =
      (UAT_PARSE_BUFFER_TOO_SMALL, some []) ∧
    some ([] : List Char) ≠ some (("1.2").toList) := by decide

/-- Claim C2 (amended): on output-buffer overflow, uAT_ParseString and
uAT_ParseQuotedString return UAT_PARSE_BUFFER_TOO_SMALL with the buffer
holding the first `cap - 1` bytes of the extracted value followed by the
terminator, but uAT_ParseIPAddress returns UAT_PARSE_BUFFER_TOO_SMALL with
the buffer left empty (nothing is copied on its overflow path). -/
theorem C2_overflow_spec
    (r1 p1 : List Char) (n1 : Nat) (s1 : List Char)
    (r2 p2 : List Char) (n2 : Nat) (rest2 : List Char)
    (r3 p3 : List Char) (n3 : Nat) (s3 : List Char)
    (hp1 : afterPfx r1 p1 = some s1) (hs1 : s1 ≠ []) (hn1 : 0 < n1)
    (hv1 : n1 ≤ (scanToLineEnd s1).length)
    (hp2 : afterPfx r2 p2 = some (('"') :: rest2)) (hn2 : 0 < n2)
    (hc2 : rest2.drop (scanToQuote rest2).length ≠ [])
    (hv2 : n2 ≤ (scanToQuote rest2).length)
    (hp3 : afterPfx r3 p3 = some s3) (hn3 : 0 < n3)
    (ha3 : ipAccept (ipScanLoop ⟨0, 0, 0, true⟩ s3).1 = true)
    (hv3 : n3 ≤ (ipScanLoop ⟨0, 0, 0, true⟩ s3).2) :
    uAT_ParseString r1 p1 n1 =
      (UAT_PARSE_BUFFER_TOO_SMALL, some ((scanToLineEnd s1).take (n1 - 1))) ∧
    uAT_ParseQuotedString r2 p2 n2 =
      (UAT_PARSE_BUFFER_TOO_SMALL, some ((scanToQuote rest2).take (n2 - 1))) ∧
    uAT_ParseIPAddress r3 p3 n3 = (UAT_PARSE_BUFFER_TOO_SMALL, some []) := by
  refine ⟨?_, ?_, ?_⟩
  · match s1, hs1 with
    | c :: t, _ =>
      simp [uAT_ParseString, hp1, Nat.pos_iff_ne_zero.mp hn1, hv1]
  · simp [uAT_ParseQuotedString, hp2, Nat.pos_iff_ne_zero.mp hn2, hc2, hv2]
  · simp [uAT_ParseIPAddress, hp3, Nat.pos_iff_ne_zero.mp hn3, ha3, hv3]

/-- Claim C2, witness: the amended theorem applied to three concrete
overflowing inputs, one per parser. -/
theorem C2_witness :
    uAT_ParseString (("Name: VeryLongDeviceName").toList) (("Name: ").toList) 10 =
      (UAT_PARSE_BUFFER_TOO_SMALL, some (("VeryLongD").toList)) ∧
    uAT_ParseQuotedString (("Op: \"Test Device\"").toList) (("Op: ").toList) 4 =
      (UAT_PARSE_BUFFER_TOO_SMALL, some (("Tes").toList)) ∧
    uAT_ParseIPAddress (("IP: 10.0.0.1").toList) (("IP: ").toList) 5 =
      (UAT_PARSE_BUFFER_TOO_SMALL, some []) := by
  have h := C2_overflow_spec
    (("Name: VeryLongDeviceName").toList) (("Name: ").toList) 10
      (("VeryLongDeviceName").toList)
    (("Op: \"Test Device\"").toList) (("Op: ").toList) 4
      (("Test Device\"").toList)
    (("IP: 10.0.0.1").toList) (("IP: ").toList) 5 (("10.0.0.1").toList)
    (by decide) (by decide) (by decide) (by decide)
    (by decide) (by decide) (by decide) (by decide)
    (by decide) (by decide) (by decide) (by decide)
  exact ⟨h.1.trans (by decide), h.2.1.trans (by decide), h.2.2⟩

/-! ## Claim C7: uAT_ParseBinaryData copy length -/

/-- Arithmetic identity between the copy length computed by
uAT_ParseBinaryData (`copyLength` capped at the buffer size) and its
min-form: `min count (min remaining cap)` when a positive count was parsed,
`min remaining cap` otherwise. -/
theorem binCopyLen_eq (el avail n : Nat) :
    (if n < (if 0 < el ∧ el ≤ avail then el else avail) then n
     else (if 0 < el ∧ el ≤ avail then el else avail)) =
    (if 0 < el then min el (min avail n) else min avail n) := by
  split_ifs <;> omega

/-- Claim C7, counterexample: for `"Data: 0,ABC"` the parsed count is 0, the
remaining payload is `"ABC"` (3 bytes) and the buffer holds 100, yet
uAT_ParseBinaryData copies all 3 bytes and reports 3 in `*dataSize`,
not `min(0, 3, 100) = 0` bytes as the claim states. -/
theorem C7_counterexample :
    binCount (("0,ABC").toList) = (0, ("ABC").toList) ∧
    uAT_ParseBinaryData (("Data: 0,ABC").toList) (("Data: ").toList) 100 =
      (UAT_PARSE_OK, ("ABC").toList, some 3) ∧
    (3 : Nat) ≠ min 0 (min 3 100) := by decide

/-- Claim C7 (amended): for every response containing the search string,
uAT_ParseBinaryData copies exactly `min(count, remaining, cap)` bytes (the
first ones of the payload) and reports that number in `*dataSize` when the
parsed decimal count is positive; when the count is 0 — either because no
digit follows the search string or because the literal count `0` was parsed
— it copies `min(remaining, cap)` bytes instead. -/
theorem C7_binary_copy_spec (r p : List Char) (n : Nat) (s : List Char)
    (hn : 0 < n) (hp : afterPfx r p = some s) :
    (uAT_ParseBinaryData r p n).2.1 =
      (binCount s).2.take (if 0 < (binCount s).1
        then min (binCount s).1 (min (binCount s).2.length n)
        else min (binCount s).2.length n) ∧
    (uAT_ParseBinaryData r p n).2.2 =
      some (if 0 < (binCount s).1
        then min (binCount s).1 (min (binCount s).2.length n)
        else min (binCount s).2.length n) := by
  have hne : n ≠ 0 := Nat.pos_iff_ne_zero.mp hn
  have key := binCopyLen_eq (binCount s).1 (binCount s).2.length n
  constructor
  · rw [← key]
    by_cases hcl : n < (if 0 < (binCount s).1 ∧
        (binCount s).1 ≤ (binCount s).2.length then (binCount s).1
        else (binCount s).2.length) <;>
      simp [uAT_ParseBinaryData, hp, hne, hcl]
  · rw [← key]
    by_cases hcl : n < (if 0 < (binCount s).1 ∧
        (binCount s).1 ≤ (binCount s).2.length then (binCount s).1
        else (binCount s).2.length) <;>
      simp [uAT_ParseBinaryData, hp, hne, hcl]

/-- Claim C7, witness: the amended theorem applied to `"Data: 5,HELLO"`
with a 100-byte buffer: count 5, remaining 5, cap 100. -/
theorem C7_witness :
    (uAT_ParseBinaryData (("Data: 5,HELLO").toList) (("Data: ").toList) 100).2.1 =
      ("HELLO").toList ∧
    (uAT_ParseBinaryData (("Data: 5,HELLO").toList) (("Data: ").toList) 100).2.2 =
      some 5 := by
  have h := C7_binary_copy_spec (("Data: 5,HELLO").toList) (("Data: ").toList)
    100 (("5,HELLO").toList) (by decide) (by decide)
  exact ⟨h.1.trans (by decide), h.2.trans (by decide)⟩

/-! ## Claim C4: dispatcher first-match and argument pointer -/

/-- The handler scan returns the first front-to-back entry whose nonempty
command is a byte-exact start of the line, together with the argument
pointer: the bytes after the command with leading SP (only) skipped. -/
theorem dispatchScan_of_first (line : List Char) :
    ∀ (l : List uAT_CommandEntry) (i : Nat) (hi : i < l.length),
    (∀ j (hj : j < i), (l.get ⟨j, Nat.lt_trans hj hi⟩).command = [] ∨
        (l.get ⟨j, Nat.lt_trans hj hi⟩).command.isPrefixOf line = false) →
    (l.get ⟨i, hi⟩).command ≠ [] →
    (l.get ⟨i, hi⟩).command.isPrefixOf line = true →
    (l.get ⟨i, hi⟩).handler ≠ 0 →
    dispatchScan l line = some ((l.get ⟨i, hi⟩).handler,
      skipSpaces (line.drop (l.get ⟨i, hi⟩).command.length)) := by
  intro l
  induction l with
  | nil => intro i hi; exact absurd hi (by simp)
  | cons e t ih =>
    intro i hi hfirst hcmd hpfx hh
    cases i with
    | zero =>
      simp only [List.get] at hcmd hpfx hh ⊢
      simp [dispatchScan, hcmd, hpfx, hh]
    | succ i1 =>
      have h0 : e.command = [] ∨ e.command.isPrefixOf line = false := by
        simpa using hfirst 0 (Nat.succ_pos i1)
      have step : dispatchScan (e :: t) line = dispatchScan t line := by
        rcases h0 with h0 | h0
        · simp [dispatchScan, h0]
        · by_cases hce : e.command = []
          · simp [dispatchScan, hce]
          · simp [dispatchScan, hce, h0]
      rw [step]
      exact ih i1 (Nat.lt_of_succ_lt_succ hi)
        (fun j hj => hfirst (j + 1) (Nat.succ_lt_succ hj)) hcmd hpfx hh

/-- Claim C4, counterexample: with the single entry `("AT+X", handler 5)` and
the line `"AT+X\tArg"`, the dispatcher passes the callback the argument
pointer `"\tArg"`: the leading HT (0x09) byte is NOT skipped, although
skipping SP and HT (as the claim states) would pass `"Arg"`. -/
theorem C4_counterexample :
    uAT_DispatchCommand [⟨("AT+X").toList, 5⟩] (("AT+X\tArg").toList) =
      some (5, ('\t') :: ("Arg").toList) ∧
    skipWs (('\t') :: ("Arg").toList) = ("Arg").toList ∧
    ('\t') :: ("Arg").toList ≠ ("Arg").toList := by decide

/-- Claim C4 (amended): for every non-empty line (shorter than the framer
buffer) matched by the first front-to-back entry whose nonempty command is
a byte-exact start of the line and whose handler is non-NULL, the callback
is invoked with a pointer to the first byte after the command with leading
SP (0x20) bytes skipped; HT (0x09) bytes are not skipped. -/
theorem C4_dispatch_first_match (table : List uAT_CommandEntry)
    (line : List Char) (i : Nat) (hi : i < table.length)
    (hne : line ≠ []) (hlen : line.length < UAT_RX_BUFFER_SIZE - 1)
    (hfirst : ∀ j (hj : j < i),
      (table.get ⟨j, Nat.lt_trans hj hi⟩).command = [] ∨
      (table.get ⟨j, Nat.lt_trans hj hi⟩).command.isPrefixOf line = false)
    (hcmd : (table.get ⟨i, hi⟩).command ≠ [])
    (hpfx : (table.get ⟨i, hi⟩).command.isPrefixOf line = true)
    (hh : (table.get ⟨i, hi⟩).handler ≠ 0) :
    uAT_DispatchCommand table line =
      some ((table.get ⟨i, hi⟩).handler,
        skipSpaces (line.drop (table.get ⟨i, hi⟩).command.length)) := by
  have hlen2 : line.length < UAT_RX_BUFFER_SIZE - 1 := hlen
  simp only [UAT_RX_BUFFER_SIZE] at hlen2
  have h1 : ¬(line = [] ∨ UAT_RX_BUFFER_SIZE ≤ line.length) := by
    push_neg
    exact ⟨hne, by simp only [UAT_RX_BUFFER_SIZE]; omega⟩
  have h2 : ¬(UAT_RX_BUFFER_SIZE - 1 ≤ line.length) := by
    simp only [UAT_RX_BUFFER_SIZE]; omega
  simp only [uAT_DispatchCommand, if_neg h1, if_neg h2]
  exact dispatchScan_of_first line table i hi hfirst hcmd hpfx hh

/-- Claim C4, witness: the amended theorem applied to a two-entry table in
which the first entry does not match, so the second one wins. -/
theorem C4_witness :
    uAT_DispatchCommand [⟨("+CREG").toList, 3⟩, ⟨("OK").toList, 7⟩]
      (("OK  done").toList) = some (7, ("done").toList) := by
  have h := C4_dispatch_first_match
    [⟨("+CREG").toList, 3⟩, ⟨("OK").toList, 7⟩] (("OK  done").toList)
    1 (by decide) (by decide) (by decide)
    (by decide) (by decide) (by decide) (by decide)
  exact h.trans (by decide)

/-! ## Claim C8: the empty prefix and the handler table -/

/-- When no entry of the table carries command `c`, the remove-and-shift
scan finds nothing. -/
theorem removeFirst_eq_none (l : List uAT_CommandEntry) (c : List Char)
    (h : ∀ e ∈ l, e.command ≠ c) : removeFirst l c = none := by
  induction l with
  | nil => rfl
  | cons e t ih =>
    have he : e.command ≠ c := h e (by simp)
    simp [removeFirst, he, ih (fun x hx => h x (by simp [hx]))]

/-- Claim C8, counterexample: uAT_SendReceive's setup accepts the empty
expected string and stores it in the handler table, so a state with an
empty stored prefix is reachable; on that state uAT_UnregisterCommand
called with the empty prefix returns UAT_OK (not an error) and changes the
table. -/
theorem C8_counterexample :
    (uAT_SetupSendReceiveState uAT_initState (some []) true 8).1 = UAT_OK ∧
    (uAT_SetupSendReceiveState uAT_initState (some []) true 8).2.cmdHandlers =
      [⟨[], uAT_CommandHandler_SendReceive_id⟩] ∧
    (uAT_UnregisterCommand
      (uAT_SetupSendReceiveState uAT_initState (some []) true 8).2
      (some [])).1 = UAT_OK ∧
    (uAT_UnregisterCommand
      (uAT_SetupSendReceiveState uAT_initState (some []) true 8).2
      (some [])).2.cmdHandlers ≠
      (uAT_SetupSendReceiveState uAT_initState (some []) true 8).2.cmdHandlers := by
  decide

/-- Claim C8 (amended): uAT_RegisterCommand and uAT_RegisterURC called with
the empty prefix return UAT_ERR_INVALID_ARG and leave the state unchanged;
uAT_UnregisterCommand with the empty prefix returns UAT_ERR_NOT_FOUND and
leaves the state unchanged provided no stored entry has an empty command —
but that proviso is not an invariant of the library, because
uAT_SetupSendReceiveState accepts an empty expected string and stores it. -/
theorem C8_empty_rejected (s : uAT_Handle) (h : Nat)
    (hclean : ∀ e ∈ s.cmdHandlers, e.command ≠ []) :
    uAT_RegisterCommand s (some []) h = (UAT_ERR_INVALID_ARG, s) ∧
    uAT_RegisterURC s (some []) h = (UAT_ERR_INVALID_ARG, s) ∧
    uAT_UnregisterCommand s (some []) = (UAT_ERR_NOT_FOUND, s) := by
  refine ⟨?_, ?_, ?_⟩
  · by_cases hh : h = 0 <;> simp [uAT_RegisterCommand, hh]
  · by_cases hh : h = 0 <;> simp [uAT_RegisterURC, hh]
  · simp [uAT_UnregisterCommand, removeFirst_eq_none s.cmdHandlers [] hclean]

/-- Claim C8, witness: the amended theorem applied to a one-entry table
holding `("OK", handler 2)`. -/
theorem C8_witness :
    uAT_RegisterCommand
      { uAT_initState with cmdHandlers := [⟨("OK").toList, 2⟩] } (some []) 3 =
      (UAT_ERR_INVALID_ARG,
       { uAT_initState with cmdHandlers := [⟨("OK").toList, 2⟩] }) ∧
    uAT_RegisterURC
      { uAT_initState with cmdHandlers := [⟨("OK").toList, 2⟩] } (some []) 3 =
      (UAT_ERR_INVALID_ARG,
       { uAT_initState with cmdHandlers := [⟨("OK").toList, 2⟩] }) ∧
    uAT_UnregisterCommand
      { uAT_initState with cmdHandlers := [⟨("OK").toList, 2⟩] } (some []) =
      (UAT_ERR_NOT_FOUND,
       { uAT_initState with cmdHandlers := [⟨("OK").toList, 2⟩] }) :=
  C8_empty_rejected
    { uAT_initState with cmdHandlers := [⟨("OK").toList, 2⟩] } 3 (by decide)

/-! ## Claim C9: idempotence of uAT_RegisterCommand -/

/-- Updating the handler of an entry that the scan just updated is a no-op
on the table. -/
theorem updateExisting_self (c : List Char) (h : Nat) :
    ∀ (l t : List uAT_CommandEntry), updateExisting l c h = some t →
    updateExisting t c h = some t := by
  intro l
  induction l with
  | nil => intro t ht; simp [updateExisting] at ht
  | cons e tl ih =>
    intro t ht
    by_cases he : e.command = c
    · simp only [updateExisting, if_pos he] at ht
      cases ht
      simp [updateExisting, he]
    · simp only [updateExisting, if_neg he] at ht
      cases hu : updateExisting tl c h with
      | none => rw [hu] at ht; cases ht
      | some t2 =>
        rw [hu] at ht
        cases ht
        simp [updateExisting, he, ih t2 hu]

/-- After appending a fresh entry `(c, h)` to a table in which `c` was
absent, the update scan finds that entry and leaves the table unchanged. -/
theorem updateExisting_append (c : List Char) (h : Nat) :
    ∀ (l : List uAT_CommandEntry), updateExisting l c h = none →
    updateExisting (l ++ [⟨c, h⟩]) c h = some (l ++ [⟨c, h⟩]) := by
  intro l
  induction l with
  | nil => intro _; simp [updateExisting]
  | cons e tl ih =>
    intro hnone
    by_cases he : e.command = c
    · simp [updateExisting, he] at hnone
    · simp only [updateExisting, if_neg he] at hnone ⊢
      cases hu : updateExisting tl c h with
      | none =>
        rw [show tl.append [(⟨c, h⟩ : uAT_CommandEntry)] = tl ++ [⟨c, h⟩]
          from rfl, ih hu]
        rfl
      | some t2 => rw [hu] at hnone; cases hnone

/-- Claim C9 (as stated): registering the same (command, handler) pair a
second time returns the same result code and leaves the whole handle state
exactly as it was after the first registration. -/
theorem C9_register_idempotent (s : uAT_Handle) (cmd : Option (List Char))
    (h : Nat) :
    uAT_RegisterCommand (uAT_RegisterCommand s cmd h).2 cmd h =
      uAT_RegisterCommand s cmd h := by
  match cmd with
  | none => rfl
  | some c =>
    by_cases hh : h = 0
    · have e1 : uAT_RegisterCommand s (some c) h = (UAT_ERR_INVALID_ARG, s) := by
        simp only [uAT_RegisterCommand, if_pos hh]
      rw [e1]; exact e1
    · by_cases hl : c.length = 0 ∨ UAT_RX_BUFFER_SIZE ≤ c.length
      · have e1 : uAT_RegisterCommand s (some c) h = (UAT_ERR_INVALID_ARG, s) := by
          simp only [uAT_RegisterCommand, if_neg hh, if_pos hl]
        rw [e1]; exact e1
      · cases hu : updateExisting s.cmdHandlers c h with
        | some t =>
          have e1 : uAT_RegisterCommand s (some c) h =
              (UAT_OK, { s with cmdHandlers := t }) := by
            simp only [uAT_RegisterCommand, if_neg hh, if_neg hl, hu]
          rw [e1]
          have hu2 := updateExisting_self c h s.cmdHandlers t hu
          simp only [uAT_RegisterCommand, if_neg hh, if_neg hl]
          rw [hu2]
        | none =>
          by_cases hroom : s.cmdHandlers.length < UAT_MAX_CMD_HANDLERS
          · have e1 : uAT_RegisterCommand s (some c) h =
                (UAT_OK, { s with cmdHandlers :=
                  s.cmdHandlers ++ [⟨c, h⟩] }) := by
              simp only [uAT_RegisterCommand, if_neg hh, if_neg hl, hu,
                if_pos hroom]
            rw [e1]
            have hu2 := updateExisting_append c h s.cmdHandlers hu
            simp only [uAT_RegisterCommand, if_neg hh, if_neg hl]
            rw [hu2]
          · have e1 : uAT_RegisterCommand s (some c) h = (UAT_ERR_RESOURCE, s) := by
              simp only [uAT_RegisterCommand, if_neg hh, if_neg hl, hu,
                if_neg hroom]
            rw [e1]; exact e1

/-! ## Claim C10: handler-table invariant under the mutating operations -/

/-- Entries surviving a removal were entries of the original table. -/
theorem removeFirst_mem (c : List Char) :
    ∀ (l t : List uAT_CommandEntry), removeFirst l c = some t →
    ∀ x ∈ t, x ∈ l := by
  intro l
  induction l with
  | nil => intro t ht; simp [removeFirst] at ht
  | cons e tl ih =>
    intro t ht x hx
    by_cases he : e.command = c
    · simp only [removeFirst, if_pos he] at ht
      cases ht
      exact List.mem_cons_of_mem e hx
    · simp only [removeFirst, if_neg he] at ht
      cases hu : removeFirst tl c with
      | none => rw [hu] at ht; cases ht
      | some t2 =>
        rw [hu] at ht
        cases ht
        rcases List.mem_cons.mp hx with rfl | hx2
        · exact List.mem_cons_self x tl
        · exact List.mem_cons_of_mem e (ih t2 hu x hx2)

/-- Removal shrinks the table by exactly one entry. -/
theorem removeFirst_length (c : List Char) :
    ∀ (l t : List uAT_CommandEntry), removeFirst l c = some t →
    t.length + 1 = l.length := by
  intro l
  induction l with
  | nil => intro t ht; simp [removeFirst] at ht
  | cons e tl ih =>
    intro t ht
    by_cases he : e.command = c
    · simp only [removeFirst, if_pos he] at ht
      cases ht
      rfl
    · simp only [removeFirst, if_neg he] at ht
      cases hu : removeFirst tl c with
      | none => rw [hu] at ht; cases ht
      | some t2 =>
        rw [hu] at ht
        cases ht
        simpa using ih t2 hu

/-- The update scan preserves the table length. -/
theorem updateExisting_length (c : List Char) (h : Nat) :
    ∀ (l t : List uAT_CommandEntry), updateExisting l c h = some t →
    t.length = l.length := by
  intro l
  induction l with
  | nil => intro t ht; simp [updateExisting] at ht
  | cons e tl ih =>
    intro t ht
    by_cases he : e.command = c
    · simp only [updateExisting, if_pos he] at ht
      cases ht
      rfl
    · simp only [updateExisting, if_neg he] at ht
      cases hu : updateExisting tl c h with
      | none => rw [hu] at ht; cases ht
      | some t2 =>
        rw [hu] at ht
        cases ht
        simpa using ih t2 hu

/-- Every entry of an updated table is an original entry or an original entry
with its handler replaced by `h`. -/
theorem updateExisting_mem (c : List Char) (h : Nat) :
    ∀ (l t : List uAT_CommandEntry), updateExisting l c h = some t →
    ∀ x ∈ t, x ∈ l ∨ ∃ e ∈ l, x = { e with handler := h } := by
  intro l
  induction l with
  | nil => intro t ht; simp [updateExisting] at ht
  | cons e tl ih =>
    intro t ht x hx
    by_cases he : e.command = c
    · simp only [updateExisting, if_pos he] at ht
      cases ht
      rcases List.mem_cons.mp hx with rfl | hx2
      · exact Or.inr ⟨e, List.mem_cons_self e tl, rfl⟩
      · exact Or.inl (List.mem_cons_of_mem e hx2)
    · simp only [updateExisting, if_neg he] at ht
      cases hu : updateExisting tl c h with
      | none => rw [hu] at ht; cases ht
      | some t2 =>
        rw [hu] at ht
        cases ht
        rcases List.mem_cons.mp hx with rfl | hx2
        · exact Or.inl (List.mem_cons_self x tl)
        · rcases ih t2 hu x hx2 with hm | ⟨e2, he2, hxe⟩
          · exact Or.inl (List.mem_cons_of_mem e hm)
          · exact Or.inr ⟨e2, List.mem_cons_of_mem e he2, hxe⟩

/-- uAT_RegisterCommand preserves the full table invariant. -/
theorem registerCommand_tableInv (s : uAT_Handle) (cmd : Option (List Char))
    (h : Nat) (hinv : tableInv s.cmdHandlers) :
    tableInv ((uAT_RegisterCommand s cmd h).2.cmdHandlers) := by
  match cmd with
  | none => exact hinv
  | some c =>
    by_cases hh : h = 0
    · simpa [uAT_RegisterCommand, hh] using hinv
    · by_cases hl : c.length = 0 ∨ UAT_RX_BUFFER_SIZE ≤ c.length
      · have e0 : (uAT_RegisterCommand s (some c) h).2.cmdHandlers =
            s.cmdHandlers := by
          simp only [uAT_RegisterCommand, if_neg hh, if_pos hl]
        rw [e0]; exact hinv
      · push_neg at hl
        have hc : c ≠ [] := fun hc0 => hl.1 (by simp [hc0])
        cases hu : updateExisting s.cmdHandlers c h with
        | some t =>
          have e1 : (uAT_RegisterCommand s (some c) h).2.cmdHandlers = t := by
            simp only [uAT_RegisterCommand, if_neg hh,
              if_neg (by push_neg; exact hl :
                ¬(c.length = 0 ∨ UAT_RX_BUFFER_SIZE ≤ c.length)), hu]
          rw [e1]
          refine ⟨?_, ?_⟩
          · rw [updateExisting_length c h s.cmdHandlers t hu]
            exact hinv.1
          · intro x hx
            rcases updateExisting_mem c h s.cmdHandlers t hu x hx with
              hm | ⟨e2, he2, rfl⟩
            · exact hinv.2 x hm
            · exact ⟨(hinv.2 e2 he2).1, hh⟩
        | none =>
          by_cases hroom : s.cmdHandlers.length < UAT_MAX_CMD_HANDLERS
          · have e1 : (uAT_RegisterCommand s (some c) h).2.cmdHandlers =
                s.cmdHandlers ++ [⟨c, h⟩] := by
              simp only [uAT_RegisterCommand, if_neg hh,
                if_neg (by push_neg; exact hl :
                  ¬(c.length = 0 ∨ UAT_RX_BUFFER_SIZE ≤ c.length)), hu,
                if_pos hroom]
            rw [e1]
            refine ⟨?_, ?_⟩
            · simp only [List.length_append, List.length_singleton]
              omega
            · intro x hx
              rcases List.mem_append.mp hx with hm | hm
              · exact hinv.2 x hm
              · rcases List.mem_singleton.mp hm with rfl
                exact ⟨hc, hh⟩
          · have e1 : (uAT_RegisterCommand s (some c) h).2.cmdHandlers =
                s.cmdHandlers := by
              simp only [uAT_RegisterCommand, if_neg hh,
                if_neg (by push_neg; exact hl :
                  ¬(c.length = 0 ∨ UAT_RX_BUFFER_SIZE ≤ c.length)), hu,
                if_neg hroom]
            rw [e1]
            exact hinv

/-- uAT_RegisterURC preserves the full table invariant. -/
theorem registerURC_tableInv (s : uAT_Handle) (cmd : Option (List Char))
    (h : Nat) (hinv : tableInv s.cmdHandlers) :
    tableInv ((uAT_RegisterURC s cmd h).2.cmdHandlers) := by
  match cmd with
  | none => exact hinv
  | some c =>
    by_cases hh : h = 0
    · simpa [uAT_RegisterURC, hh] using hinv
    · by_cases hl : c.length = 0 ∨ UAT_RX_BUFFER_SIZE ≤ c.length
      · have e0 : (uAT_RegisterURC s (some c) h).2.cmdHandlers =
            s.cmdHandlers := by
          simp only [uAT_RegisterURC, if_neg hh, if_pos hl]
        rw [e0]; exact hinv
      · push_neg at hl
        have hc : c ≠ [] := fun hc0 => hl.1 (by simp [hc0])
        cases hr : removeFirst s.cmdHandlers c with
        | none =>
          by_cases hroom : s.cmdHandlers.length < UAT_MAX_CMD_HANDLERS
          · have e0 : (uAT_RegisterURC s (some c) h).2.cmdHandlers =
                ⟨c, h⟩ :: s.cmdHandlers := by
              simp only [uAT_RegisterURC, if_neg hh,
                if_neg (by push_neg; exact hl :
                  ¬(c.length = 0 ∨ UAT_RX_BUFFER_SIZE ≤ c.length)), hr,
                if_pos hroom]
            rw [e0]
            refine ⟨by simpa using hroom, ?_⟩
            intro x hx
            rcases List.mem_cons.mp hx with rfl | hm
            · exact ⟨hc, hh⟩
            · exact hinv.2 x hm
          · have e0 : (uAT_RegisterURC s (some c) h).2.cmdHandlers =
                s.cmdHandlers := by
              simp only [uAT_RegisterURC, if_neg hh,
                if_neg (by push_neg; exact hl :
                  ¬(c.length = 0 ∨ UAT_RX_BUFFER_SIZE ≤ c.length)), hr,
                if_neg hroom]
            rw [e0]
            exact hinv
        | some t0 =>
          have hlen := removeFirst_length c s.cmdHandlers t0 hr
          have hsub := removeFirst_mem c s.cmdHandlers t0 hr
          have hroom : t0.length < UAT_MAX_CMD_HANDLERS := by
            have h1 := hinv.1
            omega
          have e0 : (uAT_RegisterURC s (some c) h).2.cmdHandlers =
              ⟨c, h⟩ :: t0 := by
            simp only [uAT_RegisterURC, if_neg hh,
              if_neg (by push_neg; exact hl :
                ¬(c.length = 0 ∨ UAT_RX_BUFFER_SIZE ≤ c.length)), hr,
              if_pos hroom]
          rw [e0]
          refine ⟨by simpa using hroom, ?_⟩
          intro x hx
          rcases List.mem_cons.mp hx with rfl | hm
          · exact ⟨hc, hh⟩
          · exact hinv.2 x (hsub x hm)

/-- uAT_UnregisterCommand preserves the full table invariant. -/
theorem unregisterCommand_tableInv (s : uAT_Handle) (cmd : Option (List Char))
    (hinv : tableInv s.cmdHandlers) :
    tableInv ((uAT_UnregisterCommand s cmd).2.cmdHandlers) := by
  match cmd with
  | none => exact hinv
  | some c =>
    cases hr : removeFirst s.cmdHandlers c with
    | none => simpa [uAT_UnregisterCommand, hr] using hinv
    | some t0 =>
      have e1 : (uAT_UnregisterCommand s (some c)).2.cmdHandlers = t0 := by
        simp [uAT_UnregisterCommand, hr]
      rw [e1]
      have hlen := removeFirst_length c s.cmdHandlers t0 hr
      refine ⟨by have := hinv.1; omega, ?_⟩
      intro x hx
      exact hinv.2 x (removeFirst_mem c s.cmdHandlers t0 hr x hx)

/-- uAT_SetupSendReceiveState preserves the weak table invariant (bound and
non-NULL handlers); it does not preserve command nonemptiness, because an
empty expected string is accepted and stored. -/
theorem setupSendReceive_tableWeakInv (s : uAT_Handle)
    (expected : Option (List Char)) (v : Bool) (bl : Nat)
    (hinv : tableWeakInv s.cmdHandlers) :
    tableWeakInv ((uAT_SetupSendReceiveState s expected v bl).2.cmdHandlers) := by
  match expected with
  | none => exact hinv
  | some e =>
    by_cases hv : ¬v ∨ bl = 0
    · have e0 : (uAT_SetupSendReceiveState s (some e) v bl).2.cmdHandlers =
          s.cmdHandlers := by
        simp only [uAT_SetupSendReceiveState, if_pos hv]
      rw [e0]; exact hinv
    · by_cases hroom : s.cmdHandlers.length < UAT_MAX_CMD_HANDLERS
      · have e1 : (uAT_SetupSendReceiveState s (some e) v bl).2.cmdHandlers =
            s.cmdHandlers ++ [⟨e, uAT_CommandHandler_SendReceive_id⟩] := by
          simp only [uAT_SetupSendReceiveState, if_neg hv, if_pos hroom]
        rw [e1]
        refine ⟨?_, ?_⟩
        · simp only [List.length_append, List.length_singleton]
          omega
        · intro x hx
          rcases List.mem_append.mp hx with hm | hm
          · exact hinv.2 x hm
          · rcases List.mem_singleton.mp hm with rfl
            simp [uAT_CommandHandler_SendReceive_id]
      · have e1 : (uAT_SetupSendReceiveState s (some e) v bl).2.cmdHandlers =
            s.cmdHandlers := by
          simp only [uAT_SetupSendReceiveState, if_neg hv, if_neg hroom]
        rw [e1]
        exact hinv

/-- Claim C10, counterexample: starting from the freshly initialized handle
(whose table satisfies the invariant), uAT_SetupSendReceiveState with the
empty expected string succeeds and stores an entry with an empty command
string, so the claimed invariant (nonempty command in every live entry) is
not preserved by the send-receive setup. -/
theorem C10_counterexample :
    tableInv uAT_initState.cmdHandlers ∧
    (uAT_SetupSendReceiveState uAT_initState (some []) true 8).1 = UAT_OK ∧
    ¬ tableInv
      ((uAT_SetupSendReceiveState uAT_initState (some []) true 8).2.cmdHandlers) := by
  decide

/-- Claim C10 (amended): uAT_RegisterCommand, uAT_RegisterURC,
uAT_UnregisterCommand and the send-receive cleanup preserve the invariant
that the table holds at most UAT_MAX_CMD_HANDLERS entries, each with a
nonempty command and non-NULL handler; uAT_SetupSendReceiveState preserves
the entry bound and non-NULL handlers but can append an entry whose command
is the empty string. -/
theorem C10_table_invariants (s : uAT_Handle) (cmd : Option (List Char))
    (h : Nat) (e1 e2 : Option (List Char)) (v : Bool) (bl : Nat)
    (hinv : tableInv s.cmdHandlers) :
    tableInv ((uAT_RegisterCommand s cmd h).2.cmdHandlers) ∧
    tableInv ((uAT_RegisterURC s cmd h).2.cmdHandlers) ∧
    tableInv ((uAT_UnregisterCommand s cmd).2.cmdHandlers) ∧
    tableInv ((uAT_CleanupSendReceiveState s e1).cmdHandlers) ∧
    tableWeakInv ((uAT_SetupSendReceiveState s e2 v bl).2.cmdHandlers) := by
  refine ⟨registerCommand_tableInv s cmd h hinv,
    registerURC_tableInv s cmd h hinv,
    unregisterCommand_tableInv s cmd hinv, ?_, ?_⟩
  · have : (uAT_CleanupSendReceiveState s e1).cmdHandlers =
        ((match e1 with
          | some x => (uAT_UnregisterCommand s (some x)).2
          | none => s)).cmdHandlers := rfl
    rw [this]
    match e1 with
    | none => exact hinv
    | some x => exact unregisterCommand_tableInv s (some x) hinv
  · exact setupSendReceive_tableWeakInv s e2 v bl ⟨hinv.1, fun x hx => (hinv.2 x hx).2⟩

/-- Claim C10, witness: the amended theorem applied to a concrete handle
state with one registered entry. -/
theorem C10_witness :
    tableInv ((uAT_RegisterCommand
      ⟨[⟨("OK").toList, 2⟩], false, false, [], 0, false⟩
      (some (("AT+X").toList)) 3).2.cmdHandlers) ∧
    tableInv ((uAT_RegisterURC
      ⟨[⟨("OK").toList, 2⟩], false, false, [], 0, false⟩
      (some (("AT+X").toList)) 3).2.cmdHandlers) ∧
    tableInv ((uAT_UnregisterCommand
      ⟨[⟨("OK").toList, 2⟩], false, false, [], 0, false⟩
      (some (("AT+X").toList))).2.cmdHandlers) ∧
    tableInv ((uAT_CleanupSendReceiveState
      ⟨[⟨("OK").toList, 2⟩], false, false, [], 0, false⟩
      (some (("OK").toList))).cmdHandlers) ∧
    tableWeakInv ((uAT_SetupSendReceiveState
      ⟨[⟨("OK").toList, 2⟩], false, false, [], 0, false⟩
      (some (("+CREG").toList)) true 64).2.cmdHandlers) :=
  C10_table_invariants
    ⟨[⟨("OK").toList, 2⟩], false, false, [], 0, false⟩
    (some (("AT+X").toList)) 3 (some (("OK").toList))
    (some (("+CREG").toList)) true 64 (by decide)

/-! ## Claim C5: accumulator update before handler invocation -/

/-- uAT_AppendToResponseBuffer never changes the handler table. -/
theorem append_cmdHandlers (s : uAT_Handle) (d : List Char) :
    (uAT_AppendToResponseBuffer s d).2.cmdHandlers = s.cmdHandlers := by
  unfold uAT_AppendToResponseBuffer
  split
  · rfl
  · split
    · rfl
    · dsimp only
      split
      · rfl
      · rfl

/-- When the line fits (with the terminator) in the remaining space of an
active SendReceive buffer, the append stores the whole line. -/
theorem append_appends (s : uAT_Handle) (d : List Char)
    (hsr : s.inSendReceive = true) (hbv : s.srBufferValid = true)
    (hne : d ≠ []) (hfit : s.srBuffer.length + d.length + 1 ≤ s.srBufferSize) :
    (uAT_AppendToResponseBuffer s d).2.srBuffer = s.srBuffer ++ d := by
  have hd : 0 < d.length := List.length_pos.mpr hne
  have hguard : ¬(¬s.inSendReceive ∨ ¬s.srBufferValid ∨
      s.srBufferSize - 1 ≤ s.srBuffer.length) := by
    push_neg
    refine ⟨by simp [hsr], by simp [hbv], by omega⟩
  have hmin : min d.length (s.srBufferSize - s.srBuffer.length - 1) =
      d.length := by omega
  simp only [uAT_AppendToResponseBuffer, if_neg hne, if_neg hguard, hmin,
    if_pos hd]
  simp

/-- Claim C5: for every line processed by the dispatcher task while a
SendReceive is active (with a valid accumulator), the observable event
sequence of the loop body is the accumulator append followed by the handler
invocation, and the accumulator contents the handler observes are the
post-append contents; when the line fits, those contents are the old buffer
with the whole line appended. -/
theorem C5_append_before_invoke (s : uAT_Handle) (line : List Char)
    (h : Nat) (args : List Char)
    (hsr : s.inSendReceive = true) (hbv : s.srBufferValid = true)
    (hne : line ≠ [])
    (hd : uAT_DispatchCommand s.cmdHandlers line = some (h, args)) :
    (uAT_Task_processLine s line).2 =
      [uAT_Event.append line,
       uAT_Event.invoke h args
         ((uAT_AppendToResponseBuffer s line).2.srBuffer)] ∧
    (s.srBuffer.length + line.length + 1 ≤ s.srBufferSize →
      (uAT_AppendToResponseBuffer s line).2.srBuffer = s.srBuffer ++ line) := by
  constructor
  · simp only [uAT_Task_processLine, if_neg hne, hsr, hbv, and_self, if_true]
    rw [append_cmdHandlers s line, hd]
    rfl
  · exact fun hfit => append_appends s line hsr hbv hne hfit

/-- Claim C5, witness: the theorem applied to a handle in SendReceive mode
whose accumulator already holds `"A\r\n"`, processing the line `"OK\r\n"`. -/
theorem C5_witness :
    (uAT_Task_processLine
      ⟨[⟨("OK").toList, 2⟩], true, true, ("A\r\n").toList, 32, false⟩
      (("OK\r\n").toList)).2 =
      [uAT_Event.append (("OK\r\n").toList),
       uAT_Event.invoke 2 (("\r\n").toList) (("A\r\nOK\r\n").toList)] ∧
    (uAT_AppendToResponseBuffer
      ⟨[⟨("OK").toList, 2⟩], true, true, ("A\r\n").toList, 32, false⟩
      (("OK\r\n").toList)).2.srBuffer = ("A\r\nOK\r\n").toList := by
  have h := C5_append_before_invoke
    ⟨[⟨("OK").toList, 2⟩], true, true, ("A\r\n").toList, 32, false⟩
    (("OK\r\n").toList) 2 (("\r\n").toList)
    rfl rfl (by decide) (by decide)
  exact ⟨h.1.trans (by decide), (h.2 (by decide)).trans (by decide)⟩

/-! ## Claim C1: no drain of the sr-matched semaphore in step 1 -/

/-- Claim C1, counterexample: starting from an initialized handle with a
stale signal pending on sendReceiveSem, step 1 of uAT_SendReceive completes
successfully and the pending signal is still there afterwards — nothing in
step 1 drains the semaphore. -/
theorem C1_counterexample :
    (uAT_SendReceive_step1 ⟨[], false, false, [], 0, true⟩
      (some (("OK").toList)) true 32).1 = UAT_OK ∧
    (uAT_SendReceive_step1 ⟨[], false, false, [], 0, true⟩
      (some (("OK").toList)) true 32).2.semPending = true := by decide

/-- Claim C1 (amended): step 1 of uAT_SendReceive does not touch
sendReceiveSem, so a signal pending from before the call survives setup;
consequently, when a stale signal is pending, the step-3 wait succeeds
immediately and uAT_SendReceive returns UAT_OK even though no line matching
the expected response arrives during the wait. -/
theorem C1_stale_signal (s : uAT_Handle) (cmd e : List Char) (bufLen : Nat)
    (hsr : s.inSendReceive = false)
    (hroom : s.cmdHandlers.length < UAT_MAX_CMD_HANDLERS)
    (hel : e.length < UAT_RX_BUFFER_SIZE) (hbl : 0 < bufLen) :
    (uAT_SendReceive_step1 s (some e) true bufLen).2.semPending =
      s.semPending ∧
    (s.semPending = true →
      (uAT_SendReceive s (some cmd) (some e) true bufLen UAT_OK false).1 =
        UAT_OK) := by
  have e1 : uAT_SendReceive_step1 s (some e) true bufLen =
      (UAT_OK, ⟨s.cmdHandlers ++ [⟨e, uAT_CommandHandler_SendReceive_id⟩],
        true, true, [], bufLen, s.semPending⟩) := by
    simp [uAT_SendReceive_step1, uAT_SetupSendReceiveState, hsr, hroom,
      Nat.pos_iff_ne_zero.mp hbl]
  constructor
  · rw [e1]
  · intro hsem
    have he2 : ¬UAT_RX_BUFFER_SIZE ≤ e.length := Nat.not_le.mpr hel
    simp [uAT_SendReceive, e1, hsem, he2, Nat.pos_iff_ne_zero.mp hbl]

/-- Claim C1, witness: the amended theorem applied to the initialized handle
with a stale pending signal; the call reports UAT_OK with no sr-callback
firing during the wait. -/
theorem C1_witness :
    (uAT_SendReceive_step1 ⟨[], false, false, [], 0, true⟩
      (some (("OK").toList)) true 32).2.semPending = true ∧
    (uAT_SendReceive ⟨[], false, false, [], 0, true⟩
      (some (("AT").toList)) (some (("OK").toList)) true 32 UAT_OK false).1 =
      UAT_OK := by
  have h := C1_stale_signal ⟨[], false, false, [], 0, true⟩
    (("AT").toList) (("OK").toList) 32 rfl (by decide) (by decide) (by decide)
  exact ⟨h.1, h.2 rfl⟩

/-! ## Claim C6: DMA idle-handler slice forwarding -/

/-- Claim C6: for all positions in `[0, UAT_DMA_RX_SIZE)`, the idle handler
leaves `dma_last_pos` equal to `current_pos` whatever the stream had room
for (short writes included); and when the stream has room for everything,
the bytes forwarded are exactly: nothing when the positions are equal, the
slice `[last_pos, current_pos)` in the forward case, and the slice
`[last_pos, D)` followed by `[0, current_pos)` in the wrap case, in that
order. -/
theorem C6_idle_slices (buf : List Nat) (lastPos currentPos room : Nat)
    (hl : lastPos < UAT_DMA_RX_SIZE) (hc : currentPos < UAT_DMA_RX_SIZE)
    (hb : buf.length = UAT_DMA_RX_SIZE) :
    (uAT_UART_IdleHandler buf lastPos currentPos room).lastPos = currentPos ∧
    (UAT_DMA_RX_SIZE ≤ room →
      (uAT_UART_IdleHandler buf lastPos currentPos room).pushed =
        if currentPos = lastPos then []
        else if lastPos < currentPos then
          (buf.drop lastPos).take (currentPos - lastPos)
        else
          (buf.drop lastPos).take (UAT_DMA_RX_SIZE - lastPos) ++
            buf.take currentPos) := by
  by_cases heq : currentPos = lastPos
  · exact ⟨by simp [uAT_UART_IdleHandler, heq],
      fun _ => by simp [uAT_UART_IdleHandler, heq]⟩
  · by_cases hgt : lastPos < currentPos
    · have hovf : ¬UAT_DMA_RX_SIZE < currentPos - lastPos := by omega
      constructor
      · simp [uAT_UART_IdleHandler, heq, hgt, hovf]
      · intro hroom
        have hsent : min (currentPos - lastPos) room = currentPos - lastPos := by
          omega
        simp [uAT_UART_IdleHandler, heq, hgt, hovf, hsent, List.take_take]
    · have hlt : currentPos < lastPos := by omega
      constructor
      · simp only [uAT_UART_IdleHandler, if_neg heq, if_neg hgt]
        split
        · rfl
        · rfl
      · intro hroom
        have htail : min (UAT_DMA_RX_SIZE - lastPos) room =
            UAT_DMA_RX_SIZE - lastPos := by omega
        by_cases hcz : 0 < currentPos
        · have hsent2 : min currentPos (room - (UAT_DMA_RX_SIZE - lastPos)) =
              currentPos := by omega
          simp [uAT_UART_IdleHandler, heq, hgt, hlt, htail, hcz, hsent2,
            List.take_take, Nat.not_lt.mpr (Nat.le_of_lt hlt)]
        · have hc0 : currentPos = 0 := by omega
          subst hc0
          simp [uAT_UART_IdleHandler, heq, hgt, htail, List.take_take]

/-- Claim C6, witness: the theorem applied to a concrete 512-byte DMA ring
in the wrap case `last_pos = 500`, `current_pos = 3`, ample stream room. -/
theorem C6_witness :
    (uAT_UART_IdleHandler (List.replicate 512 0) 500 3 512).lastPos = 3 ∧
    (uAT_UART_IdleHandler (List.replicate 512 0) 500 3 512).pushed =
      List.replicate 15 0 := by
  have h := C6_idle_slices (List.replicate 512 0) 500 3 512
    (by decide) (by decide) (by decide)
  exact ⟨h.1, (h.2 (by decide)).trans (by decide)⟩
